import Mathlib

/-!
Shallow embedding of `src/NodeST/nodest/services/prompt-builder-service.ts`
(class `PromptBuilderService`).

Conventions of the embedding:
* JS objects become structures; optional JS fields become `Option` fields,
  and JS fields that are simply absent on some object shapes become fields
  with the default value that JS `undefined` takes under the boolean
  coercions the code applies (`false` for flags, `none` for data).
* A message part `{ text: s }` is represented by the string `s`; a `parts`
  array is a `List String`.  Filled history slots hold turn objects instead
  of text parts, so the assembled message's `parts` is a sum type.
* `x || y` on JS values is modelled by the `jsOr*` helpers (falsy values
  are `undefined`/`none`, `""`, `0`, `false`).
* `Array.prototype.findIndex` is modelled by `findIdxO` (returning `none`
  for JS `-1`); `splice(i, 0, x)` by `spliceInsert`; `slice(-w)` by
  `jsSliceNeg` (including the `w = 0` case, where JS `slice(-0)` returns
  the whole array).
* Index arithmetic that can go negative or past the end in JS
  (`baseMessageIndex`, `depthFromBase`) is carried out in `Int`, exactly
  as the source computes it.
-/

namespace PromptBuilder

/-- A conversation-turn-shaped JS object, covering the shapes produced by
`processHistory` (role/parts/timestamp), the user-message turn, the
position-4 D-entry turns and the other-position D-entry turns built in
`insertDEntriesToHistory`.  Fields a given shape does not carry default to
the value JS `undefined` exhibits under the code's tests (`false` for the
`is_d_entry` / `is_author_note` flag reads, `none` for carried data). -/
structure Turn where
  role : String
  parts : List String
  timestamp : Option Int := none
  is_d_entry : Bool := false
  is_author_note : Bool := false
  depth : Option Int := none
  position : Option Int := none
  constant : Option Bool := none
  identifier : Option String := none
  name : Option String := none
deriving DecidableEq, Repr

/-- `DEntry` interface (source lines 6-15). -/
structure DEntry where
  name : String
  content : String
  role : Option String := none
  position : Option Int := none
  depth : Option Int := none
  constant : Option Bool := none
  key : Option (List String) := none
  identifier : Option String := none
deriving DecidableEq, Repr

/-- `RFrameworkEntry` interface (source lines 20-26). -/
structure RFrameworkEntry where
  name : String
  content : String
  role : Option String := none
  identifier : Option String := none
  isChatHistory : Bool := false
deriving DecidableEq, Repr

/-- `ChatMessage` as consumed by `buildPrompt`/`processHistory`: the fields
the service reads are `role`, `parts`, `timestamp` and the `is_d_entry`
flag. -/
structure ChatMessage where
  role : String
  parts : List String := []
  timestamp : Option Int := none
  is_d_entry : Bool := false
deriving DecidableEq, Repr

/-- `PromptBuilderOptions` (source lines 31-37); the destructuring defaults
of `buildPrompt` (lines 49-55) are the field defaults. -/
structure PromptBuilderOptions where
  rFramework : List RFrameworkEntry
  dEntries : List DEntry := []
  chatHistory : List ChatMessage := []
  userMessage : Option String := none
  maxHistoryLength : Nat := 15
deriving DecidableEq, Repr

/-- The `parts` array of an assembled message: either an array of
`{ text }` parts (ordinary framework blocks, one text each) or an array of
turn objects (a history-slot container; it is created empty and filled by
`messages[chatHistoryIndex].parts = historyWithDEntries`, line 119). -/
inductive OutParts where
  | texts : List String → OutParts
  | turns : List Turn → OutParts
deriving DecidableEq, Repr

/-- One element of the array returned by `buildPrompt`. -/
structure OutMsg where
  name : String
  role : String
  parts : OutParts
  identifier : Option String := none
deriving DecidableEq, Repr

/-- JS `a || b` for possibly-undefined strings (`""` is falsy). -/
def jsOrStr (o : Option String) (d : String) : String :=
  match o with
  | none => d
  | some s => if s = "" then d else s

/-- JS `a || b` for possibly-undefined numbers (`0` is falsy). -/
def jsOrInt (o : Option Int) (d : Int) : Int :=
  match o with
  | none => d
  | some v => if v = 0 then d else v

/-- JS `a || b` for possibly-undefined booleans (`false` is falsy). -/
def jsOrBool (o : Option Bool) (d : Bool) : Bool :=
  match o with
  | none => d
  | some b => if b then b else d

/-- JS truthiness of a possibly-undefined string (used in
`if (userMessage)` and `chatHistory.length > 0 || userMessage`). -/
def jsTruthy (o : Option String) : Bool :=
  match o with
  | some s => s != ""
  | none => false

/-- JS `l.slice(-w)`: the last `w` elements, the whole array when
`w >= l.length`, and also the whole array when `w = 0` (`slice(-0)` is
`slice(0)`). -/
def jsSliceNeg {α : Type} (l : List α) (w : Nat) : List α :=
  if w = 0 then l else l.drop (l.length - w)

/-- JS `Array.prototype.findIndex`, with `none` standing for `-1`. -/
def findIdxO {α : Type} (p : α → Bool) : List α → Option Nat
  | [] => none
  | x :: xs => if p x then some 0 else (findIdxO p xs).map (fun j => j + 1)

/-- JS `l.splice(idx, 0, x)` (insertion form), as a pure function. -/
def spliceInsert (l : List Turn) (idx : Nat) (x : Turn) : List Turn :=
  l.take idx ++ x :: l.drop idx

/-- The turn object built for a position-4 D-entry (source lines 168-176):
role defaulted with `||`, a single text part, `is_d_entry: true`, and the
entry's `depth`/`constant`/`identifier`/`name` carried along. -/
def toD4Turn (e : DEntry) : Turn :=
  { role := jsOrStr e.role "user"
    parts := [e.content]
    is_d_entry := true
    depth := e.depth
    constant := e.constant
    identifier := e.identifier
    name := some e.name }

/-- The turn object built for an other-position D-entry (source lines
186-194): like `toD4Turn` but carrying `position` instead of `depth`. -/
def toOtherPositionTurn (e : DEntry) : Turn :=
  { role := jsOrStr e.role "user"
    parts := [e.content]
    is_d_entry := true
    position := e.position
    constant := e.constant
    identifier := e.identifier
    name := some e.name }

/-- The depth-`d` group of `position4Entries` (source lines 163-178): the
entries with `position === 4 || position === undefined`, bucketed by the
key `entry.depth || 0`, in their original order, each mapped to its turn
object.  `position4Group d dEntries` is the bucket for key `d` (the JS
record lookup `position4Entries[d]` yields `undefined`, i.e. the empty
group, when no entry produced the key). -/
def position4Group (d : Int) : List DEntry → List Turn
  | [] => []
  | e :: rest =>
    if (e.position = some 4 ∨ e.position = none) ∧ e.depth.getD 0 = d then
      toD4Turn e :: position4Group d rest
    else
      position4Group d rest

/-- `otherPositionEntries` (source lines 184-194): entries with
`position !== undefined && position !== 4`, in order, mapped to turn
objects. -/
def otherPositionTurns : List DEntry → List Turn
  | [] => []
  | e :: rest =>
    if e.position ≠ none ∧ e.position ≠ some 4 then
      toOtherPositionTurn e :: otherPositionTurns rest
    else
      otherPositionTurns rest

/-- Source lines 150-158: `baseMessageIndex` is
`chatMessages.length - 1 - reversed.findIndex(user-turn with text ===
baseMessage)`; when `findIndex` misses it returns `-1`, making
`baseMessageIndex` equal to `chatMessages.length`, which is `!== -1`, so
the `chatMessages.length - 1` fallback of line 158 is unreachable. -/
def computeEffectiveBaseIndex (chatMessages : List Turn) (baseMessage : String) : Int :=
  let fi : Int :=
    match findIdxO (fun m => m.role == "user" && m.parts.head? == some baseMessage)
        chatMessages.reverse with
    | some j => (j : Int)
    | none => -1
  let baseMessageIndex : Int := (chatMessages.length : Int) - 1 - fi
  if baseMessageIndex ≠ -1 then baseMessageIndex else (chatMessages.length : Int) - 1

/-- The walk of source lines 200-218: before the turn at index `i` emit the
group for `depthFromBase = effBase - i` (pushing a missing group is a
no-op, so the group lookup is total here), then the turn, then after the
turn at `i = effBase` emit group `0` again. -/
def depthPass (effBase : Int) (p4 : Int → List Turn) : Nat → List Turn → List Turn
  | _, [] => []
  | i, msg :: rest =>
    p4 (effBase - (i : Int)) ++ [msg] ++
      (if (i : Int) = effBase then p4 0 else []) ++
        depthPass effBase p4 (i + 1) rest

/-- The position-2 insertion loop of source lines 227-229: iterate the
items from last to first, each time splicing at the original anchor
index `a`. -/
def insertPos2 (a : Nat) : List Turn → List Turn → List Turn
  | [], acc => acc
  | x :: xs, acc => spliceInsert (insertPos2 a xs acc) a x

/-- The position-3 insertion loop of source lines 232-234: iterate the
items first to last, splicing item `i` at `a + 1 + i` where `a` is the
anchor index computed before any position-2 insertion. -/
def insertPos3 (a : Nat) : Nat → List Turn → List Turn → List Turn
  | _, [], acc => acc
  | i, x :: xs, acc => insertPos3 a (i + 1) xs (spliceInsert acc (a + 1 + i) x)

/-- Source lines 220-235: locate the first turn flagged `is_author_note`;
if present, run the position-2 then position-3 insertion loops. -/
def anchorPass (finalHistory : List Turn) (others : List Turn) : List Turn :=
  match findIdxO (fun m => m.is_author_note) finalHistory with
  | none => finalHistory
  | some a =>
    let position2Items := others.filter (fun e => decide (e.position = some 2))
    let position3Items := others.filter (fun e => decide (e.position = some 3))
    insertPos3 a 0 position3Items (insertPos2 a position2Items finalHistory)

/-- `insertDEntriesToHistory` (source lines 135-243). -/
def insertDEntriesToHistory (history : List Turn) (dEntries : List DEntry)
    (baseMessage : String) : List Turn :=
  if dEntries.length = 0 ∨ history.length = 0 then history
  else
    let chatMessages := history.filter (fun m => !m.is_d_entry)
    let effBase := computeEffectiveBaseIndex chatMessages baseMessage
    let finalHistory := depthPass effBase (fun d => position4Group d dEntries) 0 chatMessages
    anchorPass finalHistory (otherPositionTurns dEntries)

/-- `processHistory` (source lines 248-264): drop `is_d_entry` messages,
fold any role other than `assistant`/`model` to `user`, keep parts and
timestamp.  (The `msg.parts || [{text: ""}]` fallback only matters for a
JS-`undefined` parts field, which the `List String` representation cannot
produce, so `parts` is carried through.) -/
def processHistory : List ChatMessage → List Turn
  | [] => []
  | msg :: rest =>
    if msg.is_d_entry then processHistory rest
    else
      { role := if msg.role = "assistant" ∨ msg.role = "model" then "model" else "user"
        parts := msg.parts
        timestamp := msg.timestamp } :: processHistory rest

/-- Source lines 98-109: trim the raw history to the last
`maxHistoryLength` messages, normalize it, and append the pending user
message (when truthy) as a final user turn. -/
def normalizedHistory (chatHistory : List ChatMessage) (userMessage : Option String)
    (w : Nat) : List Turn :=
  processHistory (jsSliceNeg chatHistory w) ++
    (if jsTruthy userMessage then [{ role := "user", parts := [userMessage.getD ""] }] else [])

/-- Source lines 112-116: run the D-entry insertion over the normalized
history with `userMessage || ''` as the base message. -/
def assembleHistory (options : PromptBuilderOptions) : List Turn :=
  insertDEntriesToHistory
    (normalizedHistory options.chatHistory options.userMessage options.maxHistoryLength)
    options.dEntries (options.userMessage.getD "")

/-- The message pushed for one framework entry (source lines 62-81): a
slot entry becomes an empty container with role defaulted to `system`, an
ordinary entry becomes a single-text-part block with role defaulted to
`user`. -/
def mkFrameworkMsg (entry : RFrameworkEntry) : OutMsg :=
  if entry.isChatHistory then
    { name := entry.name
      role := jsOrStr entry.role "system"
      parts := OutParts.turns []
      identifier := entry.identifier }
  else
    { name := entry.name
      role := jsOrStr entry.role "user"
      parts := OutParts.texts [entry.content]
      identifier := entry.identifier }

/-- The synthesized `"Chat History"` container of source lines 86-91. -/
def synthSlotMsg : OutMsg :=
  { name := "Chat History"
    role := "system"
    parts := OutParts.turns []
    identifier := some "chatHistory" }

/-- The `forEach` bookkeeping of `chatHistoryIndex` (source lines 59-81):
start at `-1` (`none`) and overwrite with the current message index at
every slot entry; since every entry pushes exactly one message, the
message index equals the entry index. -/
def lastSlotIdxAux : Nat → Option Nat → List RFrameworkEntry → Option Nat
  | _, acc, [] => acc
  | i, acc, e :: rest => lastSlotIdxAux (i + 1) (if e.isChatHistory then some i else acc) rest

/-- The final value of `chatHistoryIndex` after the `forEach`. -/
def lastSlotIdx (fw : List RFrameworkEntry) : Option Nat :=
  lastSlotIdxAux 0 none fw

/-- `messages[idx].parts = hist` (source line 119). -/
def fillSlot : List OutMsg → Nat → List Turn → List OutMsg
  | [], _, _ => []
  | m :: ms, 0, hist => { m with parts := OutParts.turns hist } :: ms
  | m :: ms, i + 1, hist => m :: fillSlot ms i hist

/-- `buildPrompt` (source lines 48-126).  When the framework declares a
slot, `chatHistoryIndex` points at the last slot entry and is always
`!== -1`, so the slot is filled; otherwise a container is appended and
filled only when history or a truthy user message exists. -/
def buildPrompt (options : PromptBuilderOptions) : List OutMsg :=
  let baseMessages := options.rFramework.map mkFrameworkMsg
  match lastSlotIdx options.rFramework with
  | some idx => fillSlot baseMessages idx (assembleHistory options)
  | none =>
    if 0 < options.chatHistory.length ∨ jsTruthy options.userMessage = true then
      fillSlot (baseMessages ++ [synthSlotMsg]) baseMessages.length (assembleHistory options)
    else baseMessages

/-- One of the whitespace characters stripped by JS
`String.prototype.trim` that can occur in this development (space, tab,
newline, carriage return, form feed, vertical tab; the full JS set also
covers further Unicode space separators, which none of the strings built
here contain). -/
def jsWhitespace (c : Char) : Bool :=
  c = ' ' ∨ c = '\t' ∨ c = '\n' ∨ c = '\r' ∨ c = Char.ofNat 12 ∨ c = Char.ofNat 11

/-- JS `s.trim()`: strip leading and trailing whitespace. -/
def jsTrim (s : String) : String :=
  String.mk (((s.data.dropWhile jsWhitespace).reverse.dropWhile jsWhitespace).reverse)

/-- `messagesToText` (source lines 269-293).  Every assembled message has
an array `parts`, so the first branch (`Array.isArray(msg.parts)`) always
applies: it maps `part.text || ""` over the parts and joins with `"\n"`.
For a text-part array this yields the texts; for a filled slot the turn
objects have no `text` field, so every element maps to `""`.  The
`msg.name === "Chat History"` branch of lines 284-289 also requires
`Array.isArray(msg.parts)` and is therefore unreachable.  Blocks that trim
to the empty string are filtered out and the rest joined with blank
lines. -/
def messagesToText (messages : List OutMsg) : String :=
  String.intercalate "\n\n"
    ((messages.map (fun msg =>
      match msg.parts with
      | OutParts.texts ts => String.intercalate "\n" ts
      | OutParts.turns ts => String.intercalate "\n" (ts.map (fun _ => "")))).filter
      (fun t => jsTrim t != ""))

/-- `createDEntry` (source lines 299-310): every field is defaulted with
`||`. -/
def createDEntry (options : DEntry) : DEntry :=
  { name := options.name
    content := options.content
    role := some (jsOrStr options.role "user")
    position := some (jsOrInt options.position 4)
    depth := some (jsOrInt options.depth 1)
    constant := some (jsOrBool options.constant true)
    key := some (options.key.getD [])
    identifier := options.identifier }

/-- Spec-side counter: a history-slot location in the output is a message
whose `parts` is a turn container. -/
def isSlotMsg (m : OutMsg) : Bool :=
  match m.parts with
  | OutParts.turns _ => true
  | OutParts.texts _ => false

/-- Number of history-slot locations in an assembled sequence. -/
def countSlots (messages : List OutMsg) : Nat :=
  messages.countP isSlotMsg

/-- Spec-side helper for claim C2: forget the `depth` metadata carried on
an emitted turn, so that placements can be compared independently of the
copied `depth` field. -/
def eraseDepthT (t : Turn) : Turn :=
  { t with depth := none }

/-- Spec-side helper for claim C2: replace an absent `depth` by an
explicit depth `0`. -/
def withDepthZero (e : DEntry) : DEntry :=
  if e.depth = none then { e with depth := some 0 } else e

lemma mem_position4Group_is_d (d : Int) (ds : List DEntry) :
    ∀ t ∈ position4Group d ds, t.is_d_entry = true := by
  induction ds with
  | nil => simp [position4Group]
  | cons e rest ih =>
    intro t ht
    rw [position4Group] at ht
    split at ht
    · rcases List.mem_cons.mp ht with h | h
      · subst h; rfl
      · exact ih t h
    · exact ih t ht

lemma mem_otherPositionTurns_is_d (ds : List DEntry) :
    ∀ t ∈ otherPositionTurns ds, t.is_d_entry = true := by
  induction ds with
  | nil => simp [otherPositionTurns]
  | cons e rest ih =>
    intro t ht
    rw [otherPositionTurns] at ht
    split at ht
    · rcases List.mem_cons.mp ht with h | h
      · subst h; rfl
      · exact ih t h
    · exact ih t ht

lemma filter_not_d_eq_self {h : List Turn} (hh : ∀ m ∈ h, m.is_d_entry = false) :
    h.filter (fun m => !m.is_d_entry) = h :=
  List.filter_eq_self.mpr (fun m hm => by simp [hh m hm])

lemma depthPass_filter_not_d (effBase : Int) (p4 : Int → List Turn)
    (hp : ∀ d, ∀ t ∈ p4 d, t.is_d_entry = true) :
    ∀ (cm : List Turn) (i : Nat), (∀ m ∈ cm, m.is_d_entry = false) →
      (depthPass effBase p4 i cm).filter (fun m => !m.is_d_entry) = cm := by
  intro cm
  induction cm with
  | nil => intro i _; simp [depthPass]
  | cons msg rest ih =>
    intro i hm
    rw [depthPass, List.filter_append, List.filter_append, List.filter_append]
    have h1 : (p4 (effBase - (i : Int))).filter (fun m => !m.is_d_entry) = [] :=
      List.filter_eq_nil_iff.mpr (fun t ht => by simp [hp _ t ht])
    have h2 : ([msg] : List Turn).filter (fun m => !m.is_d_entry) = [msg] := by
      simp [hm msg (List.mem_cons_self msg rest)]
    have h3 : (if ((i : Int) = effBase) then p4 0 else []).filter
        (fun m => !m.is_d_entry) = [] := by
      split
      · exact List.filter_eq_nil_iff.mpr (fun t ht => by simp [hp 0 t ht])
      · rfl
    rw [h1, h2, h3, ih (i + 1) (fun m h2m => hm m (List.mem_cons_of_mem _ h2m))]
    simp

lemma spliceInsert_filter_not_d (l : List Turn) (idx : Nat) (x : Turn)
    (hx : x.is_d_entry = true) :
    (spliceInsert l idx x).filter (fun m => !m.is_d_entry) =
      l.filter (fun m => !m.is_d_entry) := by
  unfold spliceInsert
  rw [List.filter_append, List.filter_cons_of_neg, ← List.filter_append,
    List.take_append_drop]
  simp [hx]

lemma insertPos2_filter_not_d (a : Nat) :
    ∀ (items acc : List Turn), (∀ t ∈ items, t.is_d_entry = true) →
      (insertPos2 a items acc).filter (fun m => !m.is_d_entry) =
        acc.filter (fun m => !m.is_d_entry) := by
  intro items
  induction items with
  | nil => intro acc _; rfl
  | cons x xs ih =>
    intro acc h
    rw [insertPos2, spliceInsert_filter_not_d _ _ _ (h x (by simp))]
    exact ih acc (fun t ht => h t (by simp [ht]))

lemma insertPos3_filter_not_d (a : Nat) :
    ∀ (items : List Turn) (i : Nat) (acc : List Turn),
      (∀ t ∈ items, t.is_d_entry = true) →
      (insertPos3 a i items acc).filter (fun m => !m.is_d_entry) =
        acc.filter (fun m => !m.is_d_entry) := by
  intro items
  induction items with
  | nil => intro i acc _; rfl
  | cons x xs ih =>
    intro i acc h
    rw [insertPos3, ih (i + 1) _ (fun t ht => h t (by simp [ht]))]
    exact spliceInsert_filter_not_d _ _ _ (h x (by simp))

lemma anchorPass_filter_not_d (l others : List Turn)
    (h : ∀ t ∈ others, t.is_d_entry = true) :
    (anchorPass l others).filter (fun m => !m.is_d_entry) =
      l.filter (fun m => !m.is_d_entry) := by
  cases hf : findIdxO (fun m => m.is_author_note) l with
  | none => simp [anchorPass, hf]
  | some a =>
    simp only [anchorPass, hf]
    rw [insertPos3_filter_not_d a _ 0 _
      (fun t ht => h t (List.mem_filter.mp ht).1)]
    exact insertPos2_filter_not_d a _ l (fun t ht => h t (List.mem_filter.mp ht).1)

/-- Claim C5: for a history containing no `is_d_entry`-flagged turn, any
D-entry list and any base message, filtering the `is_d_entry`-flagged
turns out of the result of `insertDEntriesToHistory` gives back the
original history unchanged and in order. -/
theorem c5_filter_insert_roundtrip (h : List Turn) (ds : List DEntry) (b : String)
    (hh : ∀ m ∈ h, m.is_d_entry = false) :
    (insertDEntriesToHistory h ds b).filter (fun m => !m.is_d_entry) = h := by
  simp only [insertDEntriesToHistory]
  split
  · exact filter_not_d_eq_self hh
  · rw [anchorPass_filter_not_d _ _ (mem_otherPositionTurns_is_d ds),
      filter_not_d_eq_self hh,
      depthPass_filter_not_d _ _ (fun d => mem_position4Group_is_d d ds) h 0 hh]

/-- Witness for claim C5 at a concrete input. -/
theorem c5_filter_insert_roundtrip_witness :
    (insertDEntriesToHistory [{ role := "user", parts := ["hi"] }]
        [{ name := "n", content := "X", position := some 4, depth := some 0 }]
        "hi").filter (fun m => !m.is_d_entry) =
      [{ role := "user", parts := ["hi"] }] :=
  c5_filter_insert_roundtrip _ _ _ (by decide)

/-- Claim C1 (evidence of the code bug): with history `[user "hi"]`, base
message `"hi"` (so the reference turn is found at index 0) and a single
position-4 entry at depth 0, the code emits the depth-0 entry TWICE — once
immediately before the reference turn (the `depthFromBase == 0` branch of
the walk) and once immediately after it (the `i === effectiveBaseIndex`
branch) — where the claim requires exactly one emission, after the
reference turn only. -/
theorem c1_depth0_duplicated_eval :
    insertDEntriesToHistory [{ role := "user", parts := ["hi"] }]
        [{ name := "n", content := "X", position := some 4, depth := some 0 }]
        "hi" =
      [{ role := "user", parts := ["X"], is_d_entry := true, depth := some 0,
         name := some "n" },
       { role := "user", parts := ["hi"] },
       { role := "user", parts := ["X"], is_d_entry := true, depth := some 0,
         name := some "n" }] := by
  decide

/-- Claim C3 (evidence of the code bug): with history
`[model "m0", model "m1"]` and no user turn matching the base message
`"x"`, `findIndex` returns `-1`, so `baseMessageIndex` evaluates to
`length = 2`, which passes the `!== -1` check; the fallback to the last
index (1) on source line 158 is dead code.  Consequently the depth-1 entry
is emitted before index 1 (`m1`), not before index 0 as a reference at the
last index would dictate, and `computeEffectiveBaseIndex` is the length 2,
not `length - 1 = 1` as the claim states. -/
theorem c3_missing_reference_uses_length :
    computeEffectiveBaseIndex
        [{ role := "model", parts := ["m0"] }, { role := "model", parts := ["m1"] }]
        "x" = 2 ∧
    insertDEntriesToHistory
        [{ role := "model", parts := ["m0"] }, { role := "model", parts := ["m1"] }]
        [{ name := "n", content := "X", position := some 4, depth := some 1 }]
        "x" =
      [{ role := "model", parts := ["m0"] },
       { role := "user", parts := ["X"], is_d_entry := true, depth := some 1,
         name := some "n" },
       { role := "model", parts := ["m1"] }] := by
  constructor
  · decide
  · decide

/-- Claim C4 (evidence of the code bug): with history `[x, anchor]` (the
anchor flagged `is_author_note`), one position-2 entry `A` and one
position-3 entry `B`, the position-3 splice uses the anchor index computed
BEFORE the position-2 insertion shifted the anchor right, so `B` lands
before the anchor: the output is `[x, A, B, anchor]`, not the claimed
`[x, A, anchor, B]`. -/
theorem c4_pos3_lands_before_anchor :
    insertDEntriesToHistory
        [{ role := "model", parts := ["x"] },
         { role := "model", parts := ["note"], is_author_note := true }]
        [{ name := "a", content := "A", position := some 2 },
         { name := "b", content := "B", position := some 3 }]
        "" =
      [{ role := "model", parts := ["x"] },
       { role := "user", parts := ["A"], is_d_entry := true, position := some 2,
         name := some "a" },
       { role := "user", parts := ["B"], is_d_entry := true, position := some 3,
         name := some "b" },
       { role := "model", parts := ["note"], is_author_note := true }] := by
  decide

/-- Claim C8 (evidence of the code bug): an assembled sequence with one
ordinary block `"sys"` and a filled history slot holding a user turn
`"hi"` and a model turn `"yo"` serializes to just `"sys"`.  The filled
slot's parts are turn objects, the `Array.isArray` branch maps their
absent `text` field to `""`, the block trims to the empty string and is
dropped — no role labels and no turn content appear, contrary to the
claim (the role-label rendering branch of source lines 284-289 is
unreachable). -/
theorem c8_history_slot_serialized_empty :
    messagesToText
        [{ name := "Sys", role := "user", parts := OutParts.texts ["sys"] },
         { name := "Chat History", role := "system",
           parts := OutParts.turns
             [{ role := "user", parts := ["hi"] }, { role := "model", parts := ["yo"] }],
           identifier := some "chatHistory" }] = "sys" := by
  decide

/-- Claim C10: `createDEntry` defaults every falsy option with `||`, so
`constant` is always `true` (even when explicitly `false`), an explicit
`position` of `0` becomes `4`, an explicit `depth` of `0` becomes `1`, and
no entry with `constant = false`, `position = 0` or `depth = 0` can be
produced. -/
theorem c10_createDEntry_defaults (o : DEntry) :
    (createDEntry o).constant = some true ∧
    (createDEntry o).position ≠ some 0 ∧
    (createDEntry o).depth ≠ some 0 ∧
    (o.position = some 0 → (createDEntry o).position = some 4) ∧
    (o.depth = some 0 → (createDEntry o).depth = some 1) ∧
    (o.constant = some false → (createDEntry o).constant = some true) := by
  refine ⟨?_, ?_, ?_, fun hp => ?_, fun hd => ?_, fun _ => ?_⟩
  · rcases hc : o.constant with _ | b
    · simp [createDEntry, jsOrBool, hc]
    · cases b <;> simp [createDEntry, jsOrBool, hc]
  · rcases hp : o.position with _ | v
    · simp [createDEntry, jsOrInt, hp]
    · by_cases hv : v = 0 <;> simp [createDEntry, jsOrInt, hp, hv]
  · rcases hd : o.depth with _ | v
    · simp [createDEntry, jsOrInt, hd]
    · by_cases hv : v = 0 <;> simp [createDEntry, jsOrInt, hd, hv]
  · simp [createDEntry, jsOrInt, hp]
  · simp [createDEntry, jsOrInt, hd]
  · rcases hc : o.constant with _ | b
    · simp [createDEntry, jsOrBool, hc]
    · cases b <;> simp [createDEntry, jsOrBool, hc]

/-- Witness for claim C10 at an options record that explicitly supplies
the falsy values `position = 0`, `depth = 0`, `constant = false`. -/
theorem c10_createDEntry_defaults_witness :
    (createDEntry { name := "n", content := "c", position := some 0,
                    depth := some 0, constant := some false }).position = some 4 ∧
    (createDEntry { name := "n", content := "c", position := some 0,
                    depth := some 0, constant := some false }).depth = some 1 ∧
    (createDEntry { name := "n", content := "c", position := some 0,
                    depth := some 0, constant := some false }).constant = some true := by
  have h := c10_createDEntry_defaults
    { name := "n", content := "c", position := some 0, depth := some 0,
      constant := some false }
  exact ⟨h.2.2.2.1 rfl, h.2.2.2.2.1 rfl, h.1⟩

/-- Counterexample for claim C2: with history
`[user "hi", model "hello", user "how"]` and base message `"how"`, a
position-4 entry with NO depth field is emitted around the reference turn
(grouped at depth 0, source key `entry.depth || 0`), while the same entry
with explicit depth 1 is emitted before `"hello"`; the outputs differ, so
an absent depth is not treated as depth 1. -/
theorem c2_absent_depth_not_depth1 :
    insertDEntriesToHistory
        [{ role := "user", parts := ["hi"] }, { role := "model", parts := ["hello"] },
         { role := "user", parts := ["how"] }]
        [{ name := "n", content := "X", position := some 4 }] "how" =
      [{ role := "user", parts := ["hi"] },
       { role := "model", parts := ["hello"] },
       { role := "user", parts := ["X"], is_d_entry := true, name := some "n" },
       { role := "user", parts := ["how"] },
       { role := "user", parts := ["X"], is_d_entry := true, name := some "n" }] ∧
    insertDEntriesToHistory
        [{ role := "user", parts := ["hi"] }, { role := "model", parts := ["hello"] },
         { role := "user", parts := ["how"] }]
        [{ name := "n", content := "X", position := some 4 }] "how" ≠
      insertDEntriesToHistory
        [{ role := "user", parts := ["hi"] }, { role := "model", parts := ["hello"] },
         { role := "user", parts := ["how"] }]
        [{ name := "n", content := "X", position := some 4, depth := some 1 }] "how" := by
  constructor
  · decide
  · decide

/-- Counterexample for claim C6: with an empty framework, no history and
no pending message, the assembled output is empty, so it does not contain
exactly one history-slot location. -/
theorem c6_no_slot_when_empty :
    buildPrompt { rFramework := [] } = [] ∧
    countSlots (buildPrompt { rFramework := [] }) ≠ 1 := by
  constructor
  · decide
  · decide

/-- Counterexample for claim C7: raw history `[user "a", annotated turn]`
with window 1 normalizes to the empty list (length 0), while the claim
predicts `min(L, W) = min(2, 1) = 1`, and discarding the annotation before
windowing would also leave 1 turn — the code windows first and filters
after. -/
theorem c7_window_before_filter_cex :
    (normalizedHistory
        [{ role := "user", parts := ["a"] },
         { role := "user", parts := ["d"], is_d_entry := true }] none 1).length = 0 ∧
    min ([{ role := "user", parts := ["a"] },
         { role := "user", parts := ["d"], is_d_entry := true }] : List ChatMessage).length 1 = 1 ∧
    (jsSliceNeg (([{ role := "user", parts := ["a"] },
         { role := "user", parts := ["d"], is_d_entry := true }] : List ChatMessage).filter
        (fun m => !m.is_d_entry)) 1).length = 1 := by
  refine ⟨?_, ?_, ?_⟩ <;> decide

/-- Counterexample for claim C9: `buildPrompt` on an annotation entry with
`position = 7` (outside `[0,4]`) does not fail — it returns a normal
assembled sequence in which the offending entry has been silently dropped
(no validation or exception exists anywhere on this code path). -/
theorem c9_invalid_position_no_error :
    buildPrompt
        { rFramework := [{ name := "Chat History", content := "",
                           role := some "system", identifier := some "chatHistory",
                           isChatHistory := true }],
          dEntries := [{ name := "bad", content := "B", position := some 7 }],
          userMessage := some "hi" } =
      [{ name := "Chat History", role := "system",
         parts := OutParts.turns [{ role := "user", parts := ["hi"] }],
         identifier := some "chatHistory" }] := by
  decide

lemma processHistory_length (l : List ChatMessage) :
    (processHistory l).length = (l.filter (fun m => !m.is_d_entry)).length := by
  induction l with
  | nil => rfl
  | cons m rest ih =>
    by_cases hd : m.is_d_entry
    · simp [processHistory, hd, ih]
    · simp [processHistory, hd, ih]

/-- Claim C7 amended: the window of `W` raw turns is taken FIRST and the
annotation-flagged turns are discarded afterwards, so the normalized
length is the number of non-annotation turns among the last `W` raw
turns, plus 1 when a (truthy) new user message is supplied; the claimed
`min(L, W)` form holds exactly when no raw turn is annotation-flagged. -/
theorem c7_normalized_length (h : List ChatMessage) (msg : Option String) (w : Nat)
    (hw : 0 < w) :
    (normalizedHistory h msg w).length =
      ((jsSliceNeg h w).filter (fun m => !m.is_d_entry)).length +
        (if jsTruthy msg then 1 else 0) ∧
    ((∀ m ∈ h, m.is_d_entry = false) →
      (normalizedHistory h msg w).length =
        min h.length w + (if jsTruthy msg then 1 else 0)) := by
  constructor
  · rw [normalizedHistory, List.length_append, processHistory_length]
    split <;> simp
  · intro hfl
    rw [normalizedHistory, List.length_append, processHistory_length]
    have hsub : (jsSliceNeg h w).filter (fun m => !m.is_d_entry) = jsSliceNeg h w := by
      apply List.filter_eq_self.mpr
      intro m hm
      have hmem : m ∈ h := by
        unfold jsSliceNeg at hm
        rw [if_neg (Nat.pos_iff_ne_zero.mp hw)] at hm
        exact List.drop_subset _ _ hm
      simp [hfl m hmem]
    rw [hsub]
    unfold jsSliceNeg
    rw [if_neg (Nat.pos_iff_ne_zero.mp hw), List.length_drop]
    have harith : h.length - (h.length - w) = min h.length w := by omega
    rw [harith]
    split <;> simp

/-- Witness for claim C7 (amended form) at a concrete input. -/
theorem c7_normalized_length_witness :
    (normalizedHistory [{ role := "user", parts := ["a"] }] (some "q") 15).length =
      min ([{ role := "user", parts := ["a"] }] : List ChatMessage).length 15 +
        (if jsTruthy (some "q") then 1 else 0) :=
  (c7_normalized_length [{ role := "user", parts := ["a"] }] (some "q") 15
    (by decide)).2 (by decide)

lemma position4Group_append (d : Int) (l1 l2 : List DEntry) :
    position4Group d (l1 ++ l2) = position4Group d l1 ++ position4Group d l2 := by
  induction l1 with
  | nil => rfl
  | cons e rest ih =>
    rw [List.cons_append, position4Group, position4Group]
    split <;> simp [ih]

lemma otherPositionTurns_append (l1 l2 : List DEntry) :
    otherPositionTurns (l1 ++ l2) = otherPositionTurns l1 ++ otherPositionTurns l2 := by
  induction l1 with
  | nil => rfl
  | cons e rest ih =>
    rw [List.cons_append, otherPositionTurns, otherPositionTurns]
    split <;> simp [ih]

lemma depthPass_empty_groups (effBase : Int) (p4 : Int → List Turn)
    (hp : ∀ d, p4 d = []) :
    ∀ (cm : List Turn) (i : Nat), depthPass effBase p4 i cm = cm := by
  intro cm
  induction cm with
  | nil => intro i; rfl
  | cons msg rest ih =>
    intro i
    simp [depthPass, hp, ih (i + 1)]

lemma anchorPass_no23 (l others : List Turn)
    (h : ∀ t ∈ others, t.position ≠ some 2 ∧ t.position ≠ some 3) :
    anchorPass l others = l := by
  have h2 : others.filter (fun e => decide (e.position = some 2)) = [] :=
    List.filter_eq_nil_iff.mpr (fun t ht => by simp [(h t ht).1])
  have h3 : others.filter (fun e => decide (e.position = some 3)) = [] :=
    List.filter_eq_nil_iff.mpr (fun t ht => by simp [(h t ht).2])
  cases hf : findIdxO (fun m => m.is_author_note) l with
  | none => simp [anchorPass, hf]
  | some a => simp [anchorPass, hf, h2, h3, insertPos2, insertPos3]

lemma anchorPass_append_no23 (l others : List Turn) (x : Turn)
    (hx2 : x.position ≠ some 2) (hx3 : x.position ≠ some 3) :
    anchorPass l (others ++ [x]) = anchorPass l others := by
  cases hf : findIdxO (fun m => m.is_author_note) l with
  | none => simp [anchorPass, hf]
  | some a => simp [anchorPass, hf, List.filter_append, hx2, hx3]

lemma processHistory_no_flags (l : List ChatMessage) :
    ∀ t ∈ processHistory l, t.is_d_entry = false := by
  induction l with
  | nil => simp [processHistory]
  | cons m rest ih =>
    intro t ht
    rw [processHistory] at ht
    split at ht
    · exact ih t ht
    · rcases List.mem_cons.mp ht with h | h
      · subst h; rfl
      · exact ih t h

lemma normalizedHistory_no_flags (ch : List ChatMessage) (um : Option String) (w : Nat) :
    ∀ t ∈ normalizedHistory ch um w, t.is_d_entry = false := by
  intro t ht
  rw [normalizedHistory] at ht
  rcases List.mem_append.mp ht with h | h
  · exact processHistory_no_flags _ t h
  · split at h
    · rcases List.mem_cons.mp h with h2 | h2
      · subst h2; rfl
      · cases h2
    · cases h

lemma insertD_append_invalid (h : List Turn) (ds : List DEntry) (b : String)
    (e : DEntry) (p : Int) (hh : ∀ m ∈ h, m.is_d_entry = false)
    (hpos : e.position = some p) (h4 : p ≠ 4) (hp2 : p ≠ 2) (hp3 : p ≠ 3) :
    insertDEntriesToHistory h (ds ++ [e]) b = insertDEntriesToHistory h ds b := by
  simp only [insertDEntriesToHistory]
  by_cases hhist : h.length = 0
  · rw [if_pos (Or.inr hhist), if_pos (Or.inr hhist)]
  · by_cases hds : ds.length = 0
    · obtain rfl : ds = [] := List.length_eq_zero.mp hds
      have c1 : ¬(([] ++ [e] : List DEntry).length = 0 ∨ h.length = 0) := by
        simp [hhist]
      rw [if_neg c1,
        if_pos (show ([] : List DEntry).length = 0 ∨ h.length = 0 from Or.inl rfl)]
      have hgrp : ∀ d, position4Group d ([] ++ [e]) = [] := by
        intro d
        simp [position4Group, hpos, h4]
      rw [filter_not_d_eq_self hh, depthPass_empty_groups _ _ hgrp h 0]
      apply anchorPass_no23
      intro t ht
      have : otherPositionTurns ([] ++ [e]) = [toOtherPositionTurn e] := by
        simp [otherPositionTurns, hpos, h4]
      rw [this] at ht
      rcases List.mem_cons.mp ht with rfl | habs
      · constructor
        · simp [toOtherPositionTurn, hpos, hp2]
        · simp [toOtherPositionTurn, hpos, hp3]
      · cases habs
    · have c1 : ¬((ds ++ [e]).length = 0 ∨ h.length = 0) := by simp [hhist]
      have c2 : ¬(ds.length = 0 ∨ h.length = 0) := by simp [hds, hhist]
      rw [if_neg c1, if_neg c2]
      have hgrp : (fun d => position4Group d (ds ++ [e])) =
          (fun d => position4Group d ds) := by
        funext d
        rw [position4Group_append]
        simp [position4Group, hpos, h4]
      have hoth : otherPositionTurns (ds ++ [e]) =
          otherPositionTurns ds ++ [toOtherPositionTurn e] := by
        rw [otherPositionTurns_append]
        simp [otherPositionTurns, hpos, h4]
      rw [hgrp, hoth]
      apply anchorPass_append_no23
      · simp [toOtherPositionTurn, hpos, hp2]
      · simp [toOtherPositionTurn, hpos, hp3]

/-- Claim C9 amended: `buildPrompt` performs no validation and never
throws; appending an annotation entry whose `position` lies outside
`[0,4]` leaves the output unchanged — the entry is silently dropped — and
every input (including empty frameworks, zero-length histories and zero
annotations) yields the normal, possibly empty, assembled sequence. -/
theorem c9_invalid_position_dropped (opts : PromptBuilderOptions) (e : DEntry)
    (p : Int) (hpos : e.position = some p) (hout : p < 0 ∨ 4 < p) :
    buildPrompt { opts with dEntries := opts.dEntries ++ [e] } = buildPrompt opts := by
  have h4 : p ≠ 4 := by omega
  have hp2 : p ≠ 2 := by omega
  have hp3 : p ≠ 3 := by omega
  have hassm : assembleHistory { opts with dEntries := opts.dEntries ++ [e] } =
      assembleHistory opts := by
    simp only [assembleHistory]
    exact insertD_append_invalid _ _ _ _ p
      (normalizedHistory_no_flags opts.chatHistory opts.userMessage opts.maxHistoryLength)
      hpos h4 hp2 hp3
  simp only [buildPrompt, hassm]

/-- Witness for claim C9 (amended form): a position-7 entry is dropped
from a concrete assembly. -/
theorem c9_invalid_position_dropped_witness :
    buildPrompt
        { rFramework := [{ name := "Chat History", content := "",
                           role := some "system", identifier := some "chatHistory",
                           isChatHistory := true }],
          dEntries := [{ name := "bad", content := "B", position := some 7 }],
          userMessage := some "hi" } =
      buildPrompt
        { rFramework := [{ name := "Chat History", content := "",
                           role := some "system", identifier := some "chatHistory",
                           isChatHistory := true }],
          userMessage := some "hi" } := by
  have h := c9_invalid_position_dropped
    { rFramework := [{ name := "Chat History", content := "",
                       role := some "system", identifier := some "chatHistory",
                       isChatHistory := true }],
      userMessage := some "hi" }
    { name := "bad", content := "B", position := some 7 } 7 rfl (Or.inr (by decide))
  simpa using h

lemma isSlotMsg_mkFrameworkMsg (e : RFrameworkEntry) :
    isSlotMsg (mkFrameworkMsg e) = e.isChatHistory := by
  by_cases hc : e.isChatHistory <;> simp [mkFrameworkMsg, isSlotMsg, hc]

lemma countSlots_map_framework (fw : List RFrameworkEntry) :
    countSlots (fw.map mkFrameworkMsg) = fw.countP (fun e => e.isChatHistory) := by
  unfold countSlots
  induction fw with
  | nil => rfl
  | cons e rest ih => simp [List.countP_cons, isSlotMsg_mkFrameworkMsg, ih]

lemma lastSlotIdxAux_some_acc (l : List RFrameworkEntry) :
    ∀ (i j : Nat), lastSlotIdxAux i (some j) l ≠ none := by
  induction l with
  | nil => intro i j h; simp [lastSlotIdxAux] at h
  | cons e rest ih =>
    intro i j
    rw [lastSlotIdxAux]
    by_cases hc : e.isChatHistory
    · rw [if_pos hc]; exact ih _ _
    · rw [if_neg hc]; exact ih _ _

lemma lastSlotIdxAux_none_no_slot (l : List RFrameworkEntry) :
    ∀ (i : Nat), lastSlotIdxAux i none l = none →
      ∀ e ∈ l, e.isChatHistory = false := by
  induction l with
  | nil => intro i _ e he; cases he
  | cons x rest ih =>
    intro i h e he
    rw [lastSlotIdxAux] at h
    by_cases hc : x.isChatHistory
    · rw [if_pos hc] at h
      exact absurd h (lastSlotIdxAux_some_acc rest (i + 1) i)
    · rw [if_neg hc] at h
      rcases List.mem_cons.mp he with rfl | hm
      · simpa using hc
      · exact ih (i + 1) h e hm

lemma lastSlotIdxAux_some_get (l : List RFrameworkEntry) :
    ∀ (i : Nat) (acc : Option Nat) (j : Nat),
      lastSlotIdxAux i acc l = some j →
      acc = some j ∨ (i ≤ j ∧ ∃ e, l[j - i]? = some e ∧ e.isChatHistory = true) := by
  induction l with
  | nil =>
    intro i acc j h
    rw [lastSlotIdxAux] at h
    exact Or.inl h
  | cons e rest ih =>
    intro i acc j h
    rw [lastSlotIdxAux] at h
    rcases ih (i + 1) _ j h with hacc | ⟨hij, e2, hget, hslot⟩
    · by_cases hc : e.isChatHistory
      · rw [if_pos hc] at hacc
        obtain rfl : i = j := Option.some.inj hacc
        refine Or.inr ⟨le_rfl, e, ?_, hc⟩
        simp [Nat.sub_self]
      · rw [if_neg hc] at hacc
        exact Or.inl hacc
    · refine Or.inr ⟨by omega, e2, ?_, hslot⟩
      have hj : j - i = (j - (i + 1)) + 1 := by omega
      rw [hj]
      simpa using hget

lemma countSlots_fillSlot (ms : List OutMsg) :
    ∀ (idx : Nat) (hist : List Turn),
      (∀ m, ms[idx]? = some m → isSlotMsg m = true) →
      countSlots (fillSlot ms idx hist) = countSlots ms := by
  induction ms with
  | nil => intro idx hist _; rfl
  | cons m rest ih =>
    intro idx hist hm
    cases idx with
    | zero =>
      have h2 : isSlotMsg m = true := hm m (by simp)
      rw [fillSlot]
      unfold countSlots
      rw [List.countP_cons, List.countP_cons, h2]
      have h1 : isSlotMsg { m with parts := OutParts.turns hist } = true := by
        simp [isSlotMsg]
      rw [h1]
    | succ k =>
      rw [fillSlot]
      unfold countSlots
      rw [List.countP_cons, List.countP_cons]
      have hrec := ih k hist (fun m2 hm2 => hm m2 (by simpa using hm2))
      unfold countSlots at hrec
      rw [hrec]

/-- Claim C6 amended: for a framework containing at most one slot-flagged
entry, the assembled output contains exactly one history-slot location
when the framework declares a slot or any conversation turn or truthy
pending user message exists, and contains none otherwise (a framework
with `k` slot entries produces `k` slot messages, and an empty input
produces an empty output with no slot). -/
theorem c6_slot_count (opts : PromptBuilderOptions)
    (hone : opts.rFramework.countP (fun e => e.isChatHistory) ≤ 1) :
    countSlots (buildPrompt opts) =
      if opts.rFramework.any (fun e => e.isChatHistory) = true ∨
          0 < opts.chatHistory.length ∨ jsTruthy opts.userMessage = true
      then 1 else 0 := by
  cases hls : lastSlotIdx opts.rFramework with
  | some idx =>
    unfold lastSlotIdx at hls
    rcases lastSlotIdxAux_some_get opts.rFramework 0 none idx hls with habs | ⟨_, e, hget, hslot⟩
    · cases habs
    · rw [Nat.sub_zero] at hget
      have hmem : e ∈ opts.rFramework := List.getElem?_mem hget
      have hany : opts.rFramework.any (fun e => e.isChatHistory) = true :=
        List.any_eq_true.mpr ⟨e, hmem, hslot⟩
      rw [if_pos (Or.inl hany)]
      simp only [buildPrompt, lastSlotIdx, hls]
      rw [countSlots_fillSlot]
      · rw [countSlots_map_framework]
        have hpos : 0 < opts.rFramework.countP (fun e => e.isChatHistory) :=
          List.countP_pos_iff.mpr ⟨e, hmem, hslot⟩
        omega
      · intro m hm
        rw [List.getElem?_map, hget] at hm
        simp only [Option.map_some'] at hm
        obtain rfl := Option.some.inj hm
        rw [isSlotMsg_mkFrameworkMsg, hslot]
  | none =>
    unfold lastSlotIdx at hls
    have hnos : ∀ e ∈ opts.rFramework, e.isChatHistory = false :=
      lastSlotIdxAux_none_no_slot opts.rFramework 0 hls
    have hany : ¬(opts.rFramework.any (fun e => e.isChatHistory) = true) := by
      rw [List.any_eq_true]
      rintro ⟨e, hmem, hsl⟩
      rw [hnos e hmem] at hsl
      cases hsl
    have hcnt : opts.rFramework.countP (fun e => e.isChatHistory) = 0 :=
      List.countP_eq_zero.mpr (fun e hmem => by simp [hnos e hmem])
    simp only [buildPrompt, lastSlotIdx, hls]
    by_cases hcond : 0 < opts.chatHistory.length ∨ jsTruthy opts.userMessage = true
    · rw [if_pos hcond, if_pos (Or.inr hcond)]
      rw [countSlots_fillSlot]
      · unfold countSlots
        rw [List.countP_append]
        have h1 : (opts.rFramework.map mkFrameworkMsg).countP isSlotMsg = 0 := by
          have := countSlots_map_framework opts.rFramework
          unfold countSlots at this
          rw [this, hcnt]
        rw [h1]
        rfl
      · intro m hm
        rw [List.getElem?_concat_length] at hm
        obtain rfl := Option.some.inj hm
        rfl
    · rw [if_neg hcond]
      have : ¬(opts.rFramework.any (fun e => e.isChatHistory) = true ∨
          0 < opts.chatHistory.length ∨ jsTruthy opts.userMessage = true) := by
        rintro (h1 | h2)
        · exact hany h1
        · exact hcond h2
      rw [if_neg this, countSlots_map_framework, hcnt]

/-- Witness for claim C6 (amended form): a framework with exactly one
slot entry assembles to an output with exactly one slot. -/
theorem c6_slot_count_witness :
    countSlots (buildPrompt
      { rFramework := [{ name := "Chat History", content := "",
                         role := some "system", identifier := some "chatHistory",
                         isChatHistory := true }] }) = 1 := by
  have h := c6_slot_count
    { rFramework := [{ name := "Chat History", content := "",
                       role := some "system", identifier := some "chatHistory",
                       isChatHistory := true }] }
    (by decide)
  simpa using h

lemma filter_map_comm (f : Turn → Turn) (p q : Turn → Bool)
    (hpq : ∀ x, p (f x) = q x) :
    ∀ l : List Turn, (l.map f).filter p = (l.filter q).map f := by
  intro l
  induction l with
  | nil => rfl
  | cons x xs ih =>
    cases hqx : q x <;> simp [List.filter_cons, hpq, hqx, ih]

lemma findIdxO_map (f : Turn → Turn) (p q : Turn → Bool)
    (hpq : ∀ x, p (f x) = q x) :
    ∀ l : List Turn, findIdxO p (l.map f) = findIdxO q l := by
  intro l
  induction l with
  | nil => rfl
  | cons x xs ih => simp only [List.map_cons, findIdxO, hpq, ih]

lemma spliceInsert_map (f : Turn → Turn) (l : List Turn) (i : Nat) (x : Turn) :
    (spliceInsert l i x).map f = spliceInsert (l.map f) i (f x) := by
  simp [spliceInsert, List.map_take, List.map_drop]

lemma insertPos2_map (f : Turn → Turn) (a : Nat) :
    ∀ (items acc : List Turn),
      (insertPos2 a items acc).map f = insertPos2 a (items.map f) (acc.map f) := by
  intro items
  induction items with
  | nil => intro acc; rfl
  | cons x xs ih =>
    intro acc
    simp only [insertPos2, List.map_cons, spliceInsert_map, ih]

lemma insertPos3_map (f : Turn → Turn) (a : Nat) :
    ∀ (items : List Turn) (i : Nat) (acc : List Turn),
      (insertPos3 a i items acc).map f = insertPos3 a i (items.map f) (acc.map f) := by
  intro items
  induction items with
  | nil => intro i acc; rfl
  | cons x xs ih =>
    intro i acc
    simp only [insertPos3, List.map_cons, ih, spliceInsert_map]

lemma filter_pos_map_erase (o : List Turn) (k : Int) :
    (o.map eraseDepthT).filter (fun e => decide (e.position = some k)) =
      (o.filter (fun e => decide (e.position = some k))).map eraseDepthT :=
  filter_map_comm eraseDepthT _ _ (fun _ => rfl) o

lemma anchorPass_map_eraseDepth (l o : List Turn) :
    (anchorPass l o).map eraseDepthT =
      anchorPass (l.map eraseDepthT) (o.map eraseDepthT) := by
  have hfind : findIdxO (fun m => m.is_author_note) (l.map eraseDepthT) =
      findIdxO (fun m => m.is_author_note) l :=
    findIdxO_map eraseDepthT _ _ (fun x => rfl) l
  cases hf : findIdxO (fun m => m.is_author_note) l with
  | none => simp [anchorPass, hf, hfind]
  | some a =>
    simp only [anchorPass, hf, hfind]
    rw [insertPos3_map, insertPos2_map, filter_pos_map_erase, filter_pos_map_erase]

lemma depthPass_map_erase_congr (eff : Int) (p4a p4b : Int → List Turn)
    (hp : ∀ d, (p4a d).map eraseDepthT = (p4b d).map eraseDepthT) :
    ∀ (cm : List Turn) (i : Nat),
      (depthPass eff p4a i cm).map eraseDepthT =
        (depthPass eff p4b i cm).map eraseDepthT := by
  intro cm
  induction cm with
  | nil => intro i; rfl
  | cons msg rest ih =>
    intro i
    simp only [depthPass, List.map_append]
    have hif : ((if ((i : Int)) = eff then p4a 0 else []).map eraseDepthT) =
        ((if ((i : Int)) = eff then p4b 0 else []).map eraseDepthT) := by
      split
      · exact hp 0
      · rfl
    rw [hp (eff - (i : Int)), hif, ih (i + 1)]

lemma position4Group_map_withDepthZero (d : Int) :
    ∀ ds : List DEntry,
      (position4Group d (ds.map withDepthZero)).map eraseDepthT =
        (position4Group d ds).map eraseDepthT := by
  intro ds
  induction ds with
  | nil => rfl
  | cons e rest ih =>
    by_cases hd : e.depth = none
    · have hw : withDepthZero e = { e with depth := some 0 } := if_pos hd
      rw [List.map_cons, hw, position4Group, position4Group]
      have hcond : ((({ e with depth := some 0 } : DEntry).position = some 4 ∨
            ({ e with depth := some 0 } : DEntry).position = none) ∧
            ({ e with depth := some 0 } : DEntry).depth.getD 0 = d) ↔
          ((e.position = some 4 ∨ e.position = none) ∧ e.depth.getD 0 = d) := by
        simp [hd]
      by_cases hc : (e.position = some 4 ∨ e.position = none) ∧ e.depth.getD 0 = d
      · rw [if_pos (hcond.mpr hc), if_pos hc]
        simp only [List.map_cons]
        rw [ih]
        rfl
      · rw [if_neg (fun h2 => hc (hcond.mp h2)), if_neg hc]
        exact ih
    · have hw : withDepthZero e = e := if_neg hd
      rw [List.map_cons, hw, position4Group, position4Group]
      by_cases hc : (e.position = some 4 ∨ e.position = none) ∧ e.depth.getD 0 = d
      · rw [if_pos hc, if_pos hc]
        simp only [List.map_cons]
        rw [ih]
      · rw [if_neg hc, if_neg hc]
        exact ih

lemma otherPositionTurns_map_withDepthZero :
    ∀ ds : List DEntry,
      otherPositionTurns (ds.map withDepthZero) = otherPositionTurns ds := by
  intro ds
  induction ds with
  | nil => rfl
  | cons e rest ih =>
    by_cases hd : e.depth = none
    · have hw : withDepthZero e = { e with depth := some 0 } := if_pos hd
      rw [List.map_cons, hw, otherPositionTurns, otherPositionTurns]
      have hcond : (({ e with depth := some 0 } : DEntry).position ≠ none ∧
            ({ e with depth := some 0 } : DEntry).position ≠ some 4) ↔
          (e.position ≠ none ∧ e.position ≠ some 4) := by
        simp
      by_cases hc : e.position ≠ none ∧ e.position ≠ some 4
      · rw [if_pos (hcond.mpr hc), if_pos hc, ih]
        rfl
      · rw [if_neg (fun h2 => hc (hcond.mp h2)), if_neg hc]
        exact ih
    · have hw : withDepthZero e = e := if_neg hd
      rw [List.map_cons, hw, otherPositionTurns, otherPositionTurns]
      by_cases hc : e.position ≠ none ∧ e.position ≠ some 4
      · rw [if_pos hc, if_pos hc, ih]
      · rw [if_neg hc, if_neg hc]
        exact ih

/-- Claim C2 amended: a position-4 (or position-unset) annotation entry
whose `depth` field is absent is grouped at depth 0 (grouping key
`entry.depth || 0`), so it is placed exactly where the same entry with an
explicit depth 0 is placed — around the reference turn, not before the
turn one position earlier — the only difference being the raw `depth`
metadata copied onto the emitted turn, which `eraseDepthT` discards. -/
theorem c2_absent_depth_as_depth0 (h : List Turn) (b : String) (ds : List DEntry) :
    (insertDEntriesToHistory h (ds.map withDepthZero) b).map eraseDepthT =
      (insertDEntriesToHistory h ds b).map eraseDepthT := by
  simp only [insertDEntriesToHistory, List.length_map]
  by_cases hc : ds.length = 0 ∨ h.length = 0
  · rw [if_pos hc, if_pos hc]
  · rw [if_neg hc, if_neg hc, anchorPass_map_eraseDepth, anchorPass_map_eraseDepth,
      otherPositionTurns_map_withDepthZero,
      depthPass_map_erase_congr _ _ _ (fun d => position4Group_map_withDepthZero d ds) _ 0]

end PromptBuilder
